import Mathlib

/-!
Verification of the db_retail dashboard core: the session/authentication
gate in `main.py` and the daily-aggregation pipeline of
`pages/1_Profile_Penjualan_By_Tipe_Motor.py`, embedded shallowly.
-/

namespace DbRetail

/-! ## Auth gate data model (`main.py`) -/

/-- Error categories reported by the login path: the distinct message shown by
`check_credentials` when secrets are missing ("Username or password hash not
found in secrets."), and the generic "Incorrect username or password." shown by
`login_form` when `check_credentials` returns `False`. -/
inductive AuthError where
  | notConfigured
  | invalidCredentials
deriving DecidableEq, Repr

/-- The credential store `st.secrets`: the keys `USERNAME` and `PASSWORD_HASH`,
each possibly absent (absence raises `KeyError` in the source). -/
structure Secrets where
  username : Option String
  passwordHash : Option String
deriving DecidableEq, Repr

/-- The session state of `main.py`: `authentication_status`,
the login form's `username` widget value, `selected_category`,
`selected_page`, and `theme`. -/
structure Session where
  authentication_status : Bool
  username : Option String
  selected_category : Option String
  selected_page : Option String
  theme : String
deriving DecidableEq, Repr

/-- `check_credentials` from `main.py`: fetch `USERNAME` and `PASSWORD_HASH`
from secrets (a `KeyError` is caught and yields `False`); return `False` when
the session username differs from the stored one, else the result of
`pwd_context.verify(password, stored_hash)`. The bcrypt verifier is a
parameter `verify` since it lives in the external passlib library. -/
def check_credentials (verify : String → String → Bool) (secrets : Secrets)
    (username password : String) : Bool :=
  match secrets.username, secrets.passwordHash with
  | some su, some sh => if username ≠ su then false else verify password sh
  | some _, none => false
  | none, _ => false

/-- The error message `check_credentials` itself displays: on the caught
`KeyError` (missing `USERNAME` or `PASSWORD_HASH`) it shows the distinct
"not found in secrets" error; on all other paths it shows nothing. -/
def check_credentials_report (secrets : Secrets) : Option AuthError :=
  match secrets.username, secrets.passwordHash with
  | some _, some _ => none
  | some _, none => some .notConfigured
  | none, _ => some .notConfigured

/-- One submission of the login form in `main.py`: if `check_credentials`
succeeds, `authentication_status` is set to `True`; otherwise it is set to
`False` and the "Incorrect username or password." error is shown after any
error `check_credentials` already displayed. Returns the updated session and
the list of displayed errors, in display order. -/
def login_submit (verify : String → String → Bool) (secrets : Secrets)
    (username password : String) (s : Session) : Session × List AuthError :=
  if check_credentials verify secrets username password then
    ({ s with authentication_status := true },
     (check_credentials_report secrets).toList)
  else
    ({ s with authentication_status := false },
     (check_credentials_report secrets).toList ++ [.invalidCredentials])

/-- The Logout button's `on_click` in `main.py`:
`st.session_state.update(authentication_status=False)` — only the
`authentication_status` key is written. -/
def logout (s : Session) : Session :=
  { s with authentication_status := false }

/-- What `main.py` renders at top level: the login form when
`authentication_status` is falsy, the sidebar-navigated dashboard otherwise. -/
inductive MainView where
  | loginForm
  | dashboard
deriving DecidableEq, Repr

/-- The top-level gate of `main.py`: `if not
st.session_state["authentication_status"]: login_form() ... else: <dashboard,
sidebar navigation and page loading>`. -/
def main_render (s : Session) : MainView :=
  if s.authentication_status then .dashboard else .loginForm

/-! ## Sales aggregation data model
(`pages/1_Profile_Penjualan_By_Tipe_Motor.py`) -/

/-- One row of the `LAPJUAL` fact table after `load_data`'s cleaning: the
derived `year`/`month` strings and `day` of month, the transaction id
`NO.MEMO`, and the categorical dimensions used by the page. -/
structure SaleRow where
  year : String
  month : String
  day : Nat
  noMemo : String
  series : String
  segment : String
  tipeunit : String
  namasalesforce : String
deriving DecidableEq, Repr

/-- The `filtered_df` step: keep rows whose `year` and `month` equal the
selected strings and whose `day` lies in `[start_day, end_day]`. -/
def filterRows (rows : List SaleRow) (y m : String) (startDay endDay : Nat) :
    List SaleRow :=
  rows.filter fun r =>
    r.year == y && r.month == m && decide (startDay ≤ r.day)
      && decide (r.day ≤ endDay)

/-- `all_days_in_range`: the days `start_day, start_day+1, ..., end_day`. -/
def rangeDays (startDay endDay : Nat) : List Nat :=
  List.range' startDay (endDay + 1 - startDay)

/-- `daily_counts`: group the filtered rows by `day` counting `NO.MEMO`
entries, then left-merge onto `all_days_in_range` filling absent days with 0.
The result is one `(day, count)` pair per day of the range, in range order. -/
def daily_counts (rows : List SaleRow) (startDay endDay : Nat) :
    List (Nat × Nat) :=
  (rangeDays startDay endDay).map fun d =>
    (d, rows.countP fun r => r.day == d)

/-- First-occurrence deduplication, the order `pandas.unique` uses. -/
def nubStr : List String → List String
  | [] => []
  | a :: as => a :: nubStr (as.filter fun b => b != a)
termination_by l => l.length
decreasing_by
  simp only [List.length_cons]
  exact Nat.lt_succ_of_le (List.length_filter_le _ _)

/-- `filtered_df["SERIES"].unique()` (and likewise for the other dimensions):
the distinct values of the chosen dimension column observed in the rows, in
first-seen order. -/
def uniqueVals (dim : SaleRow → String) (rows : List SaleRow) : List String :=
  nubStr (rows.map dim)

/-- `daily_series_counts` (and the identical `daily_segment_counts` /
`daily_tipeunit_counts`): group the rows by `(day, dimension)` with `size()`,
then reindex on the full product `range(start_day, end_day+1) ×
unique dimension values` with `fill_value=0`. One `(day, value, count)`
triple per cell of the product, day-major as `MultiIndex.from_product`
orders it. -/
def daily_dim_counts (dim : SaleRow → String) (rows : List SaleRow)
    (startDay endDay : Nat) : List (Nat × String × Nat) :=
  (rangeDays startDay endDay).flatMap fun d =>
    (uniqueVals dim rows).map fun c =>
      (d, c, rows.countP fun r => r.day == d && dim r == c)

/-- `daily_series_counts.groupby("SERIES")["count"].sum()` evaluated at one
category value: the sum of the `count` column over the breakdown's rows whose
category equals `c`. -/
def dimTotal (counts : List (Nat × String × Nat)) (c : String) : Nat :=
  ((counts.filter fun t => t.2.1 == c).map fun t => t.2.2).sum

/-- `active_series`: the category values of the breakdown whose summed count
is positive (`series_total[series_total > 0].index`). -/
def active_dims (counts : List (Nat × String × Nat)) : List String :=
  (nubStr (counts.map fun t => t.2.1)).filter fun c => decide (0 < dimTotal counts c)

/-- `filtered_series_counts`: the breakdown restricted to rows whose category
is in `active_series` (`daily_series_counts["SERIES"].isin(active_series)`). -/
def filtered_dim_counts (counts : List (Nat × String × Nat)) :
    List (Nat × String × Nat) :=
  counts.filter fun t => (active_dims counts).contains t.2.1

/-- The aggregates the Tipe Motor page computes once past its gate. -/
structure PageOutput where
  dailyCounts : List (Nat × Nat)
  seriesCounts : List (Nat × String × Nat)
  segmentCounts : List (Nat × String × Nat)
  tipeunitCounts : List (Nat × String × Nat)
deriving DecidableEq, Repr

/-- The Tipe Motor page body: `if not
st.session_state.get("authentication_status"): st.error(...); st.stop()` —
no data is loaded, filtered, aggregated or rendered — else filter the loaded
rows and compute the daily aggregates. -/
def page_render (s : Session) (rows : List SaleRow) (y m : String)
    (startDay endDay : Nat) : Option PageOutput :=
  if s.authentication_status then
    let f := filterRows rows y m startDay endDay
    some ⟨daily_counts f startDay endDay,
          daily_dim_counts SaleRow.series f startDay endDay,
          daily_dim_counts SaleRow.segment f startDay endDay,
          daily_dim_counts SaleRow.tipeunit f startDay endDay⟩
  else none

/-- Sum of the breakdown's `count` column over the rows for one day: the
per-day height of the stacked bar across all categories. -/
def breakdownDaySum (counts : List (Nat × String × Nat)) (d : Nat) : Nat :=
  ((counts.filter fun t => t.1 == d).map fun t => t.2.2).sum

/-- The value of a dense daily series at one day: the sum of the `count`
column over its entries for that day (a single entry when days are unique). -/
def totalsAt (totals : List (Nat × Nat)) (d : Nat) : Nat :=
  ((totals.filter fun t => t.1 == d).map fun t => t.2).sum

/-- The category values appearing in a dense daily breakdown, in first-seen
order (the columns of the stacked chart). -/
def breakdownCategories (counts : List (Nat × String × Nat)) : List String :=
  nubStr (counts.map fun t => t.2.1)

/-- A small filtered row collection (the March 2024 scenario) used to
instantiate the aggregation theorems at concrete inputs. -/
def sampleRows : List SaleRow :=
  [⟨"2024", "03", 5, "m1", "X", "sgA", "tu1", "sf1"⟩,
   ⟨"2024", "03", 5, "m2", "Y", "sgA", "tu1", "sf1"⟩,
   ⟨"2024", "03", 7, "m3", "X", "sgB", "tu2", "sf2"⟩]

/-- A filtered collection whose only series value is "A". -/
def onlyARows : List SaleRow :=
  [⟨"2024", "03", 2, "m1", "A", "sgA", "tu1", "sf1"⟩]

/-! ## Helper lemmas -/

theorem mem_nubStr {a : String} : ∀ {l : List String}, a ∈ nubStr l ↔ a ∈ l := by
  intro l
  induction l using nubStr.induct with
  | case1 => simp [nubStr]
  | case2 b bs ih =>
    rw [nubStr]
    by_cases hab : a = b
    · subst hab; simp
    · simp only [List.mem_cons, ih, List.mem_filter, bne_iff_ne, ne_eq]
      constructor
      · rintro (h | ⟨h, _⟩)
        · exact Or.inl h
        · exact Or.inr h
      · rintro (h | h)
        · exact Or.inl h
        · exact Or.inr ⟨h, hab⟩

theorem nodup_nubStr : ∀ (l : List String), (nubStr l).Nodup := by
  intro l
  induction l using nubStr.induct with
  | case1 => simp [nubStr]
  | case2 b bs ih =>
    rw [nubStr]
    refine List.Nodup.cons ?_ ih
    intro hmem
    rcases (List.mem_filter.mp (mem_nubStr.mp hmem)).2 with h
    simp at h

theorem countP_or_disj {α : Type} (q₁ q₂ : α → Bool) :
    ∀ (l : List α), (∀ a ∈ l, ¬(q₁ a = true ∧ q₂ a = true)) →
      l.countP (fun a => q₁ a || q₂ a) = l.countP q₁ + l.countP q₂ := by
  intro l
  induction l with
  | nil => intro _; simp
  | cons a as ih =>
    intro h
    have ha := h a (List.mem_cons_self a as)
    have has : ∀ b ∈ as, ¬(q₁ b = true ∧ q₂ b = true) :=
      fun b hb => h b (List.mem_cons_of_mem a hb)
    simp only [List.countP_cons, ih has]
    cases hq1 : q₁ a <;> cases hq2 : q₂ a <;> simp_all <;> omega

theorem sum_countP_fibers (rows : List SaleRow) (p : SaleRow → Bool)
    (dim : SaleRow → String) :
    ∀ (cs : List String), cs.Nodup →
      ((cs.map fun c => rows.countP fun r => p r && dim r == c).sum)
        = rows.countP fun r => p r && cs.contains (dim r) := by
  intro cs
  induction cs with
  | nil =>
    intro _
    simp [List.countP_eq_zero]
  | cons c cs ih =>
    intro hnd
    have hc : c ∉ cs := (List.nodup_cons.mp hnd).1
    have hcs : cs.Nodup := (List.nodup_cons.mp hnd).2
    simp only [List.map_cons, List.sum_cons, ih hcs]
    have hsplit :
        rows.countP (fun r => p r && (c :: cs).contains (dim r))
          = rows.countP (fun r => p r && dim r == c)
            + rows.countP (fun r => p r && cs.contains (dim r)) := by
      have hcong :
          rows.countP (fun r => p r && (c :: cs).contains (dim r))
            = rows.countP
                (fun r => (p r && dim r == c) || (p r && cs.contains (dim r))) := by
        apply List.countP_congr
        intro r _
        cases hp : p r <;> cases hd : dim r == c
        · simp [List.contains_cons, hp, hd]
        · simp [List.contains_cons, hp, hd]
        · simp only [List.contains_cons, hp, hd, Bool.true_and, Bool.false_or,
            Bool.or_false]
        · simp [List.contains_cons, hp, hd, eq_of_beq hd]
      rw [hcong]
      apply countP_or_disj
      intro r _
      rintro ⟨h1, h2⟩
      have hd : dim r = c := by
        have := (Bool.and_eq_true _ _).mp h1
        exact eq_of_beq this.2
      have hmem : dim r ∈ cs := by
        have := (Bool.and_eq_true _ _).mp h2
        exact List.mem_of_elem_eq_true this.2
      exact hc (hd ▸ hmem)
    omega

theorem filter_map_comm {α β : Type} (f : α → β) (p : β → Bool) :
    ∀ (l : List α), (l.map f).filter p = (l.filter fun a => p (f a)).map f := by
  intro l
  induction l with
  | nil => simp
  | cons a as ih =>
    cases hp : p (f a) <;> simp [List.filter_cons, hp, ih]

theorem filter_self_of_nodup {α : Type} [BEq α] [LawfulBEq α] (c : α) :
    ∀ (cs : List α), cs.Nodup → c ∈ cs →
      cs.filter (fun v => v == c) = [c] := by
  intro cs
  induction cs with
  | nil => intro _ h; cases h
  | cons b bs ih =>
    intro hnd hmem
    have hb : b ∉ bs := (List.nodup_cons.mp hnd).1
    have hbs : bs.Nodup := (List.nodup_cons.mp hnd).2
    by_cases hbc : b = c
    · subst hbc
      have : bs.filter (fun v => v == b) = [] := by
        apply List.filter_eq_nil_iff.mpr
        intro v hv
        simp only [beq_iff_eq]
        intro hvb
        exact hb (hvb ▸ hv)
      simp [List.filter_cons, this]
    · have hcbs : c ∈ bs := by
        rcases List.mem_cons.mp hmem with h | h
        · exact absurd h.symm hbc
        · exact h
      have : (b == c) = false := by simp [hbc]
      simp [List.filter_cons, this, ih hbs hcbs]

theorem mem_rangeDays {d s e : Nat} : d ∈ rangeDays s e ↔ s ≤ d ∧ d ≤ e := by
  simp only [rangeDays, List.mem_range'_1]
  omega

theorem nodup_rangeDays (s e : Nat) : (rangeDays s e).Nodup :=
  List.nodup_range' _ _

theorem length_rangeDays (s e : Nat) : (rangeDays s e).length = e + 1 - s := by
  simp [rangeDays]

theorem filter_fst_map (h : Nat → Nat) (d : Nat) (ds : List Nat)
    (hnd : ds.Nodup) (hd : d ∈ ds) :
    ((ds.map fun x => (x, h x)).filter fun t => t.1 == d) = [(d, h d)] := by
  rw [filter_map_comm]
  have : (ds.filter fun x => (x, h x).1 == d) = [d] := by
    simpa using filter_self_of_nodup d ds hnd hd
  rw [this]
  rfl

theorem filter_day_flatMap (cs : List String) (g : Nat → String → Nat)
    (d : Nat) :
    ∀ (ds : List Nat), ds.Nodup → d ∈ ds →
      ((ds.flatMap fun x => cs.map fun c => (x, c, g x c)).filter
          fun t => t.1 == d)
        = cs.map fun c => (d, c, g d c) := by
  intro ds
  induction ds with
  | nil => intro _ hd; cases hd
  | cons x ds ih =>
    intro hnd hd
    have hx : x ∉ ds := (List.nodup_cons.mp hnd).1
    have hds : ds.Nodup := (List.nodup_cons.mp hnd).2
    rw [List.flatMap_cons, List.filter_append, filter_map_comm]
    by_cases hxd : x = d
    · subst hxd
      have h1 : (cs.filter fun c => (x, c, g x c).1 == x) = cs := by
        apply List.filter_eq_self.mpr
        intro c _
        simp
      have h2 : ((ds.flatMap fun y => cs.map fun c => (y, c, g y c)).filter
          fun t => t.1 == x) = [] := by
        apply List.filter_eq_nil_iff.mpr
        intro t ht
        rcases List.mem_flatMap.mp ht with ⟨y, hy, htc⟩
        rcases List.mem_map.mp htc with ⟨c, _, rfl⟩
        simp only [beq_iff_eq]
        intro hyx
        exact hx (hyx ▸ hy)
      rw [h1, h2, List.append_nil]
    · have hdds : d ∈ ds := by
        rcases List.mem_cons.mp hd with h | h
        · exact absurd h.symm hxd
        · exact h
      have h1 : (cs.filter fun c => (x, c, g x c).1 == d) = [] := by
        apply List.filter_eq_nil_iff.mpr
        intro c _
        simp [hxd]
      rw [h1, List.map_nil, List.nil_append, ih hds hdds]

theorem filter_cat_flatMap (cs : List String) (g : Nat → String → Nat)
    (c : String) (hnd : cs.Nodup) (hc : c ∈ cs) :
    ∀ (ds : List Nat),
      ((ds.flatMap fun x => cs.map fun v => (x, v, g x v)).filter
          fun t => t.2.1 == c)
        = ds.map fun x => (x, c, g x c) := by
  intro ds
  induction ds with
  | nil => rfl
  | cons x ds ih =>
    rw [List.flatMap_cons, List.filter_append, filter_map_comm, ih]
    have h1 : (cs.filter fun v => (x, v, g x v).2.1 == c) = [c] := by
      simpa using filter_self_of_nodup c cs hnd hc
    rw [h1]
    rfl

theorem totalsAt_daily_counts (rows : List SaleRow) (s e d : Nat)
    (h1 : s ≤ d) (h2 : d ≤ e) :
    totalsAt (daily_counts rows s e) d = rows.countP fun r => r.day == d := by
  unfold totalsAt daily_counts
  rw [filter_fst_map _ d _ (nodup_rangeDays s e) (mem_rangeDays.mpr ⟨h1, h2⟩)]
  simp

theorem dim_mem_uniqueVals (dim : SaleRow → String) (rows : List SaleRow)
    (r : SaleRow) (hr : r ∈ rows) : dim r ∈ uniqueVals dim rows :=
  mem_nubStr.mpr (List.mem_map.mpr ⟨r, hr, rfl⟩)

theorem breakdownDaySum_daily_dim (dim : SaleRow → String)
    (rows : List SaleRow) (s e d : Nat) (h1 : s ≤ d) (h2 : d ≤ e) :
    breakdownDaySum (daily_dim_counts dim rows s e) d
      = rows.countP fun r => r.day == d := by
  unfold breakdownDaySum daily_dim_counts
  rw [filter_day_flatMap _ _ d _ (nodup_rangeDays s e)
    (mem_rangeDays.mpr ⟨h1, h2⟩)]
  rw [List.map_map]
  have hfib := sum_countP_fibers rows (fun r => r.day == d) dim
    (uniqueVals dim rows) (nodup_nubStr _)
  have hmap : ((uniqueVals dim rows).map
        ((fun t => t.2.2) ∘ fun c => (d, c, rows.countP
          fun r => r.day == d && dim r == c))).sum
      = ((uniqueVals dim rows).map fun c => rows.countP
          fun r => r.day == d && dim r == c).sum := rfl
  rw [hmap, hfib]
  apply List.countP_congr
  intro r hr
  cases hday : r.day == d
  · simp [hday]
  · simp only [hday, Bool.true_and]
    have := List.elem_eq_true_of_mem (dim_mem_uniqueVals dim rows r hr)
    simp only [List.contains, this]

/-! ## Claim theorems -/

/-- Claim C1: cross-consistency of the aggregation pipeline — for any filtered
event collection, any categorical dimension, and every day of the range, the
sum over all category values of the dense daily breakdown equals the dense
daily totals value for that day. -/
theorem C1_cross_consistency (dim : SaleRow → String) (rows : List SaleRow)
    (startDay endDay d : Nat) (h1 : startDay ≤ d) (h2 : d ≤ endDay) :
    breakdownDaySum (daily_dim_counts dim rows startDay endDay) d
      = totalsAt (daily_counts rows startDay endDay) d := by
  rw [breakdownDaySum_daily_dim dim rows _ _ d h1 h2,
    totalsAt_daily_counts rows _ _ d h1 h2]

/-- Witness for C1 at the concrete March scenario, day 5 of range 1–10. -/
theorem C1_witness :
    breakdownDaySum (daily_dim_counts SaleRow.series sampleRows 1 10) 5
      = totalsAt (daily_counts sampleRows 1 10) 5 :=
  C1_cross_consistency SaleRow.series sampleRows 1 10 5 (by decide) (by decide)

/-- Claim C2: when the session's authenticated flag is false, the main router
shows only the login form regardless of the navigation fields, and the page
body stops before any data loading, aggregation or rendering. -/
theorem C2_auth_gate (s : Session) (h : s.authentication_status = false)
    (rows : List SaleRow) (y m : String) (startDay endDay : Nat)
    (c p : Option String) :
    main_render s = MainView.loginForm ∧
    main_render { s with selected_category := c, selected_page := p }
      = MainView.loginForm ∧
    page_render s rows y m startDay endDay = none := by
  refine ⟨?_, ?_, ?_⟩ <;> simp [main_render, page_render, h]

/-- Witness for C2 at a concrete unauthenticated session. -/
theorem C2_witness :
    main_render ⟨false, none, some "Profile-H1", some "Profile Konsumen",
        "light"⟩ = MainView.loginForm ∧
    main_render ⟨false, none, some "Other", some "Page", "light"⟩
      = MainView.loginForm ∧
    page_render ⟨false, none, some "Profile-H1", some "Profile Konsumen",
        "light"⟩ sampleRows "2024" "03" 1 31 = none :=
  C2_auth_gate ⟨false, none, some "Profile-H1", some "Profile Konsumen",
    "light"⟩ rfl sampleRows "2024" "03" 1 31 (some "Other") (some "Page")

/-- Claim C3: with stored username and password hash present,
`check_credentials` returns true iff the candidate username equals the stored
username exactly (case-sensitive String equality) and the verifier accepts the
candidate password against the stored hash; if either fails it is false. -/
theorem C3_check_credentials_iff (verify : String → String → Bool)
    (su sh u p : String) :
    check_credentials verify ⟨some su, some sh⟩ u p = true ↔
      (u = su ∧ verify p sh = true) := by
  unfold check_credentials
  by_cases h : u = su
  · subst h; simp
  · simp [h]

/-- Claim C4: for 1 ≤ start ≤ end ≤ days-in-month, `daily_counts` returns
exactly end − start + 1 entries, with days strictly ascending, no duplicates,
covering every day of [start, end]. -/
theorem C4_daily_counts_shape (rows : List SaleRow)
    (startDay endDay daysInMonth : Nat) (h0 : 1 ≤ startDay)
    (h1 : startDay ≤ endDay) (h2 : endDay ≤ daysInMonth) :
    (daily_counts rows startDay endDay).length = endDay - startDay + 1 ∧
    ((daily_counts rows startDay endDay).map Prod.fst).Pairwise (· < ·) ∧
    ((daily_counts rows startDay endDay).map Prod.fst).Nodup ∧
    ∀ d, startDay ≤ d → d ≤ endDay →
      d ∈ (daily_counts rows startDay endDay).map Prod.fst := by
  have hmap : (daily_counts rows startDay endDay).map Prod.fst
      = rangeDays startDay endDay := by
    unfold daily_counts
    rw [List.map_map]
    have : (Prod.fst ∘ fun d => (d, rows.countP fun r => r.day == d))
        = fun d : Nat => d := rfl
    rw [this, List.map_id']
  refine ⟨?_, ?_, ?_, ?_⟩
  · unfold daily_counts
    rw [List.length_map, length_rangeDays]
    omega
  · rw [hmap]
    exact List.pairwise_lt_range' _ _
  · rw [hmap]
    exact nodup_rangeDays _ _
  · intro d hd1 hd2
    rw [hmap]
    exact mem_rangeDays.mpr ⟨hd1, hd2⟩

/-- Witness for C4 at the concrete March scenario over days 1–10 of a
31-day month. -/
theorem C4_witness :
    (daily_counts sampleRows 1 10).length = 10 - 1 + 1 :=
  (C4_daily_counts_shape sampleRows 1 10 31 (by decide) (by decide)
    (by decide)).1

/-- Claim C5: the category values appearing in a daily breakdown are exactly
the distinct dimension values observed in the filtered collection passed in —
a value appears as a breakdown category iff some input row carries it. -/
theorem C5_breakdown_categories (dim : SaleRow → String) (rows : List SaleRow)
    (startDay endDay : Nat) (h : startDay ≤ endDay) (c : String) :
    c ∈ breakdownCategories (daily_dim_counts dim rows startDay endDay) ↔
      c ∈ rows.map dim := by
  unfold breakdownCategories
  rw [mem_nubStr]
  constructor
  · intro hc
    rcases List.mem_map.mp hc with ⟨t, ht, rfl⟩
    unfold daily_dim_counts at ht
    rcases List.mem_flatMap.mp ht with ⟨d, _, htd⟩
    rcases List.mem_map.mp htd with ⟨v, hv, rfl⟩
    exact mem_nubStr.mp hv
  · intro hc
    have hcu : c ∈ uniqueVals dim rows := mem_nubStr.mpr hc
    have hd : startDay ∈ rangeDays startDay endDay :=
      mem_rangeDays.mpr ⟨Nat.le_refl _, h⟩
    refine List.mem_map.mpr
      ⟨(startDay, c, rows.countP fun r => r.day == startDay && dim r == c),
        ?_, rfl⟩
    unfold daily_dim_counts
    exact List.mem_flatMap.mpr ⟨startDay, hd, List.mem_map.mpr ⟨c, hcu, rfl⟩⟩

/-- Witness for C5: a filtered set containing only series "A" yields a
breakdown containing category "A" and not category "B". -/
theorem C5_witness :
    ("A" ∈ breakdownCategories (daily_dim_counts SaleRow.series onlyARows 1 3)
      ↔ "A" ∈ onlyARows.map SaleRow.series) ∧
    ("B" ∈ breakdownCategories (daily_dim_counts SaleRow.series onlyARows 1 3)
      ↔ "B" ∈ onlyARows.map SaleRow.series) :=
  ⟨C5_breakdown_categories SaleRow.series onlyARows 1 3 (by decide) "A",
   C5_breakdown_categories SaleRow.series onlyARows 1 3 (by decide) "B"⟩

/-- Claim C6: `daily_counts` on an empty event collection over a valid day
range succeeds and yields one entry per day in range, each valued 0; over
[1, 30] it yields 30 entries, all valued 0. -/
theorem C6_daily_counts_empty :
    (∀ startDay endDay, startDay ≤ endDay →
      (daily_counts [] startDay endDay).length = endDay - startDay + 1 ∧
      (daily_counts [] startDay endDay).all (fun t => t.2 == 0) = true) ∧
    (daily_counts [] 1 30).length = 30 ∧
    (daily_counts [] 1 30).all (fun t => t.2 == 0) = true := by
  refine ⟨?_, by decide, by decide⟩
  intro s e h
  constructor
  · unfold daily_counts
    rw [List.length_map, length_rangeDays]
    omega
  · unfold daily_counts
    rw [List.all_eq_true]
    intro t ht
    rcases List.mem_map.mp ht with ⟨d, _, rfl⟩
    simp

/-- Witness for C6's universally quantified part, at the range 2–5. -/
theorem C6_witness :
    (daily_counts [] 2 5).length = 5 - 2 + 1 ∧
    (daily_counts [] 2 5).all (fun t => t.2 == 0) = true :=
  C6_daily_counts_empty.1 2 5 (by decide)

/-- Counterexample to claim C8: the Logout click handler writes only
`authentication_status`; on a session whose login-form username is
"admin" the username is not cleared, refuting the claim that logout clears
current_username. -/
theorem C8_counterexample :
    (logout ⟨true, some "admin", some "Profile-H1", some "Profile Konsumen",
        "light"⟩).username = some "admin" ∧
    (some "admin" : Option String) ≠ none := by
  exact ⟨rfl, by simp⟩

/-- Claim C8 as amended: logout unconditionally sets authentication_status to
false and leaves every other session field unchanged — the stored username is
retained, and selected_category/selected_page survive logout. -/
theorem C8_logout_frame (s : Session) :
    (logout s).authentication_status = false ∧
    (logout s).username = s.username ∧
    (logout s).selected_category = s.selected_category ∧
    (logout s).selected_page = s.selected_page ∧
    (logout s).theme = s.theme :=
  ⟨rfl, rfl, rfl, rfl, rfl⟩

/-- Counterexample to claim C9: with both secrets missing, a submitted login
displays the distinct not-configured error and additionally the generic
"Incorrect username or password." error, refuting that the failure is
NotConfigured rather than InvalidCredentials. -/
theorem C9_counterexample :
    (login_submit (fun _ _ => false) ⟨none, none⟩ "admin" "pw"
        ⟨false, none, none, none, "light"⟩).2
      = [AuthError.notConfigured, AuthError.invalidCredentials] ∧
    AuthError.invalidCredentials ∈
      (login_submit (fun _ _ => false) ⟨none, none⟩ "admin" "pw"
        ⟨false, none, none, none, "light"⟩).2 := by
  exact ⟨rfl, by decide⟩

/-- Claim C9 as amended: when the stored username or password hash is missing,
a submitted login does not crash (the KeyError is caught): the distinct
NotConfigured error is reported first and login fails, but the generic
InvalidCredentials message is additionally displayed because
`check_credentials` merely returns false to the form. -/
theorem C9_not_configured (verify : String → String → Bool) (secrets : Secrets)
    (u p : String) (s : Session)
    (h : secrets.username = none ∨ secrets.passwordHash = none) :
    (login_submit verify secrets u p s).1.authentication_status = false ∧
    (login_submit verify secrets u p s).2
      = [AuthError.notConfigured, AuthError.invalidCredentials] := by
  obtain ⟨su, sh⟩ := secrets
  have hcc : check_credentials verify ⟨su, sh⟩ u p = false := by
    rcases h with h | h
    · simp only at h
      subst h
      cases sh <;> rfl
    · simp only at h
      subst h
      cases su <;> rfl
  have hrep : check_credentials_report ⟨su, sh⟩
      = some AuthError.notConfigured := by
    rcases h with h | h
    · simp only at h
      subst h
      cases sh <;> rfl
    · simp only at h
      subst h
      cases su <;> rfl
  unfold login_submit
  rw [hcc, hrep]
  exact ⟨rfl, rfl⟩

/-- Witness for C9's amended theorem at a concrete missing-hash store. -/
theorem C9_witness :
    (login_submit (fun _ _ => true) ⟨some "admin", none⟩ "admin" "pw"
        ⟨true, some "admin", some "cat", some "page", "dark"⟩).1.authentication_status
      = false ∧
    (login_submit (fun _ _ => true) ⟨some "admin", none⟩ "admin" "pw"
        ⟨true, some "admin", some "cat", some "page", "dark"⟩).2
      = [AuthError.notConfigured, AuthError.invalidCredentials] :=
  C9_not_configured (fun _ _ => true) ⟨some "admin", none⟩ "admin" "pw"
    ⟨true, some "admin", some "cat", some "page", "dark"⟩ (Or.inr rfl)

/-- Claim C10: every category value appearing in a dense daily breakdown
computed from rows whose days all lie in the range has a total count of at
least 1, so the chart-layer pruning of zero-total categories removes no row
of the breakdown. -/
theorem C10_prune_noop (dim : SaleRow → String) (rows : List SaleRow)
    (startDay endDay : Nat)
    (h : ∀ r ∈ rows, startDay ≤ r.day ∧ r.day ≤ endDay) :
    (∀ c ∈ uniqueVals dim rows,
        1 ≤ dimTotal (daily_dim_counts dim rows startDay endDay) c) ∧
    filtered_dim_counts (daily_dim_counts dim rows startDay endDay)
      = daily_dim_counts dim rows startDay endDay := by
  have htot : ∀ c ∈ uniqueVals dim rows,
      1 ≤ dimTotal (daily_dim_counts dim rows startDay endDay) c := by
    intro c hcu
    rcases List.mem_map.mp (mem_nubStr.mp hcu) with ⟨r, hr, rfl⟩
    unfold dimTotal daily_dim_counts
    rw [filter_cat_flatMap (uniqueVals dim rows)
      (fun d c => rows.countP fun r => r.day == d && dim r == c) (dim r)
      (nodup_nubStr _) hcu (rangeDays startDay endDay), List.map_map]
    have hday : r.day ∈ rangeDays startDay endDay :=
      mem_rangeDays.mpr (h r hr)
    have hpos : 1 ≤ rows.countP fun x => x.day == r.day && dim x == dim r := by
      refine List.countP_pos_iff.mpr ⟨r, hr, ?_⟩
      simp
    have hmem : (rows.countP fun x => x.day == r.day && dim x == dim r)
        ∈ (rangeDays startDay endDay).map
            ((fun t => t.2.2) ∘ fun x =>
              (x, dim r, rows.countP fun y => y.day == x && dim y == dim r)) :=
      List.mem_map.mpr ⟨r.day, hday, rfl⟩
    exact le_trans hpos (List.single_le_sum (fun b _ => Nat.zero_le b) _ hmem)
  refine ⟨htot, ?_⟩
  apply List.filter_eq_self.mpr
  intro t ht
  have hcat : t.2.1 ∈ uniqueVals dim rows := by
    unfold daily_dim_counts at ht
    rcases List.mem_flatMap.mp ht with ⟨d, _, htd⟩
    rcases List.mem_map.mp htd with ⟨v, hv, rfl⟩
    exact hv
  have hmemnub : t.2.1 ∈ nubStr
      ((daily_dim_counts dim rows startDay endDay).map fun x => x.2.1) :=
    mem_nubStr.mpr (List.mem_map.mpr ⟨t, ht, rfl⟩)
  have hactive : t.2.1 ∈ active_dims (daily_dim_counts dim rows startDay endDay) := by
    unfold active_dims
    refine List.mem_filter.mpr ⟨hmemnub, ?_⟩
    simp only [decide_eq_true_eq]
    exact lt_of_lt_of_le Nat.zero_lt_one (htot _ hcat)
  exact List.elem_eq_true_of_mem hactive

/-- Witness for C10 at the concrete March scenario over days 1–10. -/
theorem C10_witness :
    filtered_dim_counts (daily_dim_counts SaleRow.series sampleRows 1 10)
      = daily_dim_counts SaleRow.series sampleRows 1 10 :=
  (C10_prune_noop SaleRow.series sampleRows 1 10 (by decide)).2

end DbRetail
